import Mathlib

/-!
Verification development for the ad-copy batch analysis pipeline
(`streamlit_app.py`).  The analysis core is shallowly embedded: Python
values returned by `json.loads` become the inductive `PyValue`; Python
dicts become association lists that respect insertion order and
last-write-wins key semantics; the network is an oracle parameter
(one `ServiceResponse` per attempt); a Python exception that escapes a
function is an explicit `PyResult` / `Option` failure value.
-/

/-- A Python value as produced by `json.loads` (plus `str` coercions).
Dicts are insertion-ordered association lists with string keys, exactly
the shapes JSON can produce. -/
inductive PyValue where
  | str (s : String)
  | int (n : Int)
  | bool (b : Bool)
  | pynull
  | list (xs : List PyValue)
  | dict (kvs : List (String × PyValue))
deriving Repr

/-- A Python dict with string keys: insertion-ordered association list. -/
abbrev Dict := List (String × PyValue)

mutual
/-- Python `repr` of a value (as used by `str()` on containers).
String escaping inside quotes is not modelled; the development only
evaluates it on strings without quote characters. -/
def pyRepr : PyValue → String
  | .str s => "\x27" ++ s ++ "\x27"
  | .int n => toString n
  | .bool b => if b then "True" else "False"
  | .pynull => "None"
  | .list xs => "[" ++ pyReprList xs ++ "]"
  | .dict kvs => "\x7b" ++ pyReprPairs kvs ++ "\x7d"

/-- Comma-separated `repr`s of list elements. -/
def pyReprList : List PyValue → String
  | [] => ""
  | [x] => pyRepr x
  | x :: y :: xs => pyRepr x ++ ", " ++ pyReprList (y :: xs)

/-- Comma-separated `'key': repr(value)` renderings of dict entries. -/
def pyReprPairs : List (String × PyValue) → String
  | [] => ""
  | [(k, v)] => "\x27" ++ k ++ "\x27: " ++ pyRepr v
  | (k, v) :: kv :: kvs =>
      "\x27" ++ k ++ "\x27: " ++ pyRepr v ++ ", " ++ pyReprPairs (kv :: kvs)
end

/-- Python `str()`: identity on strings, `repr`-like on everything else. -/
def pyStr : PyValue → String
  | .str s => s
  | v => pyRepr v

/-- Lookup in a Python dict (first binding of the key; a well-formed
Python dict has at most one). -/
def lookupV : Dict → String → Option PyValue
  | [], _ => none
  | (k', v) :: t, k => if k' = k then some v else lookupV t k

/-- The key list of a dict, in insertion order. -/
def keysOf (d : Dict) : List String := d.map Prod.fst

/-- Inserting a binding into a Python dict: an existing key keeps its
position but takes the new value; a new key is appended. -/
def dictInsert (acc : Dict) (k : String) (v : PyValue) : Dict :=
  if k ∈ keysOf acc then
    acc.map (fun kv => if kv.1 = k then (kv.1, v) else kv)
  else
    acc ++ [(k, v)]

/-- Python `dict(items)`: left-to-right insertion, so a duplicated key
keeps its first position and its last value. -/
def dictOf (items : Dict) : Dict :=
  items.foldl (fun acc kv => dictInsert acc kv.1 kv.2) []

/-- The item traversal of `flatten_dict` (source lines 99-107): each
entry `(k, v)` contributes `new_key = parent + sep + k` (just `k` at the
top level); a dict value recurses (the source's inner
`flatten_dict(v, new_key, sep).items()`, hence the `dictOf`), any other
value is emitted as a leaf. -/
def flattenPairs (sep : String) : String → Dict → Dict
  | _, [] => []
  | parent, (k, v) :: rest =>
    let newKey := if parent = "" then k else parent ++ sep ++ k
    (match v with
     | PyValue.dict kvs => dictOf (flattenPairs sep newKey kvs)
     | w => [(newKey, w)]) ++ flattenPairs sep parent rest
termination_by parent d => sizeOf d
decreasing_by
  all_goals simp_wf
  all_goals omega

/-- `flatten_dict(d)` with the default `parent_key=''`, `sep='_'`:
the accumulated items turned back into a dict (source line 107). -/
def flatten_dict (d : Dict) : Dict :=
  dictOf (flattenPairs "_" "" d)

/-- Number of leaves (non-dict positions) of a dict, counting through
nested sub-dicts. -/
def leafCountD : Dict → Nat
  | [] => 0
  | (_, PyValue.dict kvs) :: rest => leafCountD kvs + leafCountD rest
  | _ :: rest => 1 + leafCountD rest
termination_by d => sizeOf d
decreasing_by
  all_goals simp_wf
  all_goals omega

/-! ### The one service call (`analyze_ad_copy`, source lines 26-92)

The network is an oracle: attempt `i` of the POST at source line 33
either raises a `requests.exceptions.RequestException` (connection
error, timeout, or — via `raise_for_status` at line 70 — a 5xx/4xx
status) or returns a body whose `choices[0].message.content` is a raw
string together with its `json.loads` parse (`none` when `json.loads`
raises `JSONDecodeError`). -/

/-- What one attempt of the upstream POST yields. -/
inductive ServiceResponse where
  /-- `requests.post` or `raise_for_status` raised a
  `requests.exceptions.RequestException`. -/
  | transport_error
  /-- The call returned; `raw` is the message content string and
  `parsed` its `json.loads` result (`none` = `JSONDecodeError`). -/
  | content (parsed : Option PyValue) (raw : String)

/-- The result of running a piece of Python code: a value, a raised
`requests.exceptions.RequestException`, or any other raised exception. -/
inductive PyResult (α : Type) where
  | value (a : α)
  | transportExn
  | otherExn
deriving Repr, DecidableEq

/-- The per-key coercion loop of `analyze_ad_copy` (source lines 77-81):
a list value has its elements passed through `str()`, a non-string
non-list value is passed through `str()` itself (note: this includes
nested dicts, which are stringified wholesale), a string is kept. -/
def coerceTop (kvs : Dict) : Dict :=
  kvs.map (fun kv =>
    (kv.1,
      match kv.2 with
      | PyValue.list xs => PyValue.list (xs.map (fun x => PyValue.str (pyStr x)))
      | PyValue.str s => PyValue.str s
      | v => PyValue.str (pyStr v)))

/-- The structured dictionary built when `json.loads` raises
(source lines 85-88). -/
def parseFailureDict (raw : String) : Dict :=
  [("raw_content", PyValue.str raw),
   ("parsing_error", PyValue.str "Failed to parse API response as JSON")]

/-- One execution of the body of `analyze_ad_copy` (source lines 32-92)
against the attempt's service response:
* a `RequestException` is caught at line 90 and turned into `None`
  (so the body itself never lets a transport exception escape);
* `JSONDecodeError` from `json.loads` is caught at line 83 and yields
  the `parseFailureDict`;
* a successfully parsed dict goes through the line 77-81 coercion;
* a successfully parsed non-dict makes `parsed_content.items()` at
  line 77 raise `AttributeError`, which no handler catches. -/
def analyzeBody (resp : ServiceResponse) : PyResult (Option Dict) :=
  match resp with
  | .transport_error => .value none
  | .content parsed _raw =>
    match parsed with
    | none => .value (some (parseFailureDict _raw))
    | some (PyValue.dict kvs) => .value (some (coerceTop kvs))
    | some _ => .otherExn

/-- The `tenacity.retry` wrapper (source lines 26-30), generic in the
wrapped body: attempt `k` (0-based) runs `body k`; a raised
`RequestException` is retried (after an exponential-backoff wait, not
observable here) until `stop_after_attempt maxA` attempts have been
made, at which point the failure propagates; any other outcome — a
returned value or a non-matching exception — ends the call at once.
Returns the number of attempts made and the final outcome. -/
def tenacityGo {α : Type} (body : Nat → PyResult α) (maxA : Nat) (k : Nat) :
    Nat × PyResult α :=
  match body k with
  | .transportExn =>
      if h : k + 1 < maxA then tenacityGo body maxA (k + 1)
      else (k + 1, .transportExn)
  | r => (k + 1, r)
termination_by maxA - k

/-- A call of the decorated function. -/
def tenacityRetry {α : Type} (body : Nat → PyResult α) (maxA : Nat) :
    Nat × PyResult α :=
  tenacityGo body maxA 0

/-- `analyze_ad_copy(ad_copy, search_term)` as decorated: tenacity with
`stop_after_attempt(3)` around `analyzeBody`, with the service oracle
supplying attempt `i`'s response.  `ad_copy` and `search_term` only
shape the outgoing prompt (source lines 43-66); the response to each
attempt is the oracle's business, so they are unused here. -/
def analyze_ad_copy (_ad_copy _search_term : String)
    (oracle : Nat → ServiceResponse) : Nat × PyResult (Option Dict) :=
  tenacityRetry (fun i => analyzeBody (oracle i)) 3

/-! ### Quota probe (`check_rate_limits`, source lines 14-24) -/

/-- The payload of the `auth/key` response, as far as line 20-21's
`response.json()['data']['rate_limit']` access cares: either the keys
are all present with a request count and an interval string (e.g.
`"10s"`), or the access raises (`JSONDecodeError` / `KeyError` /
`TypeError`). -/
inductive ProbePayload where
  | wellFormed (requests : Nat) (interval : String)
  | malformed
deriving Repr, DecidableEq

/-- What the probe's `requests.get` produced. -/
inductive ProbeResponse where
  | transport_error
  | http (status : Nat) (payload : ProbePayload)
deriving Repr, DecidableEq

/-- `check_rate_limits()` (source lines 14-24): on status 200 the
payload is drilled into (raising on a malformed body); on any other
status an error is shown and `(None, None)` is returned; an exception
from `requests.get` itself propagates. -/
def check_rate_limits (probe : ProbeResponse) : PyResult (Option (Nat × String)) :=
  match probe with
  | .transport_error => .transportExn
  | .http status payload =>
    if status = 200 then
      match payload with
      | .wellFormed q itv => .value (some (q, itv))
      | .malformed => .otherExn
    else
      .value none

/-! ### Batch orchestrator (`main`, source lines 155-208)

`main`'s analyze branch: probe the quota, then loop over the CSV rows
in order, calling `analyze_ad_copy` once per row, appending non-`None`
results, pausing on the count-based rate-limit condition, and finally
flattening / unifying / list-joining the accumulated results.  The
whole branch runs inside `try ... except Exception` (source line 224),
so any uncaught exception ends the run with an error box and no
result table. -/

/-- One input CSV row (the columns `validate_columns` requires). -/
structure AdRecord where
  title : String
  snippet : String
  displayed_link : String
deriving Repr, DecidableEq

/-- The `ad_copy` string built from a row (source lines 164-166). -/
def adCopyOf (r : AdRecord) : String :=
  "Title: " ++ r.title ++ "\nSnippet: " ++ r.snippet ++
    "\nDisplay URL: " ++ r.displayed_link

/-- The analysis value `main` sees for one record (the decorated call,
with the record's single service response as the oracle). -/
def analysisOf (searchTerm : String) (p : AdRecord × ServiceResponse) :
    PyResult (Option Dict) :=
  (analyze_ad_copy (adCopyOf p.1) searchTerm (fun _ => p.2)).2

/-- The numeric value of a decimal digit character (`none` otherwise). -/
def digitVal (c : Char) : Option Nat :=
  if c.isDigit then some (c.toNat - 48) else none

/-- Accumulate decimal digits left to right; any non-digit fails. -/
def parseNatChars : List Char → Nat → Option Nat
  | [], acc => some acc
  | c :: cs, acc =>
    match digitVal c with
    | none => none
    | some d => parseNatChars cs (acc * 10 + d)

/-- Python `int(s)` on the non-negative decimal strings this pipeline
meets: all-digit and non-empty, else a `ValueError` (the `none`). -/
def pyIntParse (s : String) : Option Nat :=
  match s.data with
  | [] => none
  | c :: cs => parseNatChars (c :: cs) 0

/-- `int(interval[:-1])` (source line 182): strip the trailing unit
character and parse a (non-negative) integer; `none` models the
`ValueError` a non-numeric remainder raises. -/
def sleepSecondsOf (itv : String) : Option Nat :=
  pyIntParse (itv.dropRight 1)

/-- The per-record loop (source lines 162-182).  Arguments: remaining
`(row, service response)` pairs and the current 0-based `index`;
`total` is `len(df)`.  Returns (number of `analyze_ad_copy` calls made,
0-based indices after which `time.sleep` ran, `some` accumulated
results or `none` when an exception escaped to line 224):
* an analysis value of `None` (failed call) is *not* appended
  (lines 169-177); any other value is;
* after each call, line 180 evaluates `(index + 1) % rate_limit`
  (raising `ZeroDivisionError` when `rate = 0`) and pauses when it is
  `0` and more records remain, line 182 parsing the interval string
  (raising `ValueError` when non-numeric);
* an exception escaping `analyze_ad_copy` (the non-mapping-JSON
  `AttributeError`) aborts the loop, and with it the run. -/
def mainLoop (searchTerm : String) (rate : Nat) (itv : String) (total : Nat) :
    List (AdRecord × ServiceResponse) → Nat → Nat × List Nat × Option (List Dict)
  | [], _ => (0, [], some [])
  | (r, resp) :: rest, idx =>
    match (analyze_ad_copy (adCopyOf r) searchTerm (fun _ => resp)).2 with
    | .value a =>
        if rate = 0 then (1, [], none)
        else if (idx + 1) % rate = 0 ∧ idx < total - 1 then
          match sleepSecondsOf itv with
          | none => (1, [], none)
          | some _ =>
            let (c, ps, res) := mainLoop searchTerm rate itv total rest (idx + 1)
            (c + 1, idx :: ps,
              res.map (fun l => match a with | some d => d :: l | none => l))
        else
          let (c, ps, res) := mainLoop searchTerm rate itv total rest (idx + 1)
          (c + 1, ps,
            res.map (fun l => match a with | some d => d :: l | none => l))
    | _ => (1, [], none)

/-- The results the loop would keep: one dict per record whose analysis
returned a value other than `None`, in input order. -/
def keptDicts (searchTerm : String) (rs : List (AdRecord × ServiceResponse)) :
    List Dict :=
  rs.filterMap (fun p =>
    match analysisOf searchTerm p with
    | .value (some d) => some d
    | _ => none)

/-- `all_keys = set().union(*flattened_results)` (source line 189): the
union of the rows' key sets, here as a deduplicated list. -/
def allKeys (rows : List Dict) : List String :=
  ((rows.map keysOf).flatten).dedup

/-- `{key: result.get(key, '') for key in all_keys}` (source line 194):
every key of the unified schema, with the row's value or the `''`
placeholder. -/
def rewriteRow (K : List String) (row : Dict) : Dict :=
  K.map (fun k => (k, (lookupV row k).getD (PyValue.str "")))

/-- The normalization of source lines 188-195: rewrite every row to the
union schema. -/
def unify (rows : List Dict) : List Dict :=
  rows.map (rewriteRow (allKeys rows))

/-- Traverse a list with a fallible function, failing as soon as one
element fails (a raised exception propagates). -/
def mapMO {α β : Type} (f : α → Option β) : List α → Option (List β)
  | [] => some []
  | a :: l =>
    match f a with
    | none => none
    | some b => (mapMO f l).map (fun bs => b :: bs)

/-- `', '.join(x)` (source line 203): joins a list of Python *strings*;
a non-string element makes `join` raise `TypeError` (the `none`). -/
def pyJoinStrs (xs : List PyValue) : Option String :=
  (mapMO (fun v => match v with | PyValue.str s => some s | _ => none) xs).map
    (String.intercalate ", ")

/-- The cell transformation of source line 203's lambda:
`', '.join(x) if isinstance(x, list) else x`.  (The column-level
`.any()` gate at line 202 is immaterial: the lambda is the identity on
non-list cells, so applying it to every cell of every column is
observationally the same.) -/
def joinCellOpt : PyValue → Option PyValue
  | PyValue.list xs => (pyJoinStrs xs).map PyValue.str
  | v => some v

/-- Source lines 201-203 applied to one row. -/
def joinRow (row : Dict) : Option Dict :=
  mapMO (fun kv => (joinCellOpt kv.2).map (fun v => (kv.1, v))) row

/-- Source lines 186-203: flatten each result, unify the schema, then
join list-valued cells into delimited strings. -/
def finalizeTable (results : List Dict) : Option (List Dict) :=
  mapMO joinRow (unify (results.map flatten_dict))

/-- What one batch run ends in. -/
inductive RunResult where
  /-- An exception reached the `except Exception` at source line 224:
  an error box, no result table. -/
  | aborted
  /-- `check_rate_limits` returned `(None, None)` and line 159
  returned before the loop. -/
  | probeFailed
  /-- `results` was empty: the line 208 warning, no result table. -/
  | noResults
  /-- The finalized result table (line 198's DataFrame rows). -/
  | table (t : List Dict)

/-- Observable trace of one run: how many analysis calls were issued,
after which record indices the pacing sleep ran, and the outcome. -/
structure RunTrace where
  calls : Nat
  pauses : List Nat
  result : RunResult

/-- The loop-and-finalize part of `main`, once the probe has yielded a
rate and an interval (source lines 161-208): run the per-record loop,
then finalize the accumulated results — an empty accumulation produces
only a warning (line 208), never a table. -/
def afterProbe (searchTerm : String) (rate : Nat) (itv : String)
    (rs : List (AdRecord × ServiceResponse)) : RunTrace :=
  match mainLoop searchTerm rate itv rs.length rs 0 with
  | (c, ps, none) => { calls := c, pauses := ps, result := .aborted }
  | (c, ps, some []) => { calls := c, pauses := ps, result := .noResults }
  | (c, ps, some (d :: ds)) =>
      match finalizeTable (d :: ds) with
      | none => { calls := c, pauses := ps, result := .aborted }
      | some t => { calls := c, pauses := ps, result := .table t }

/-- The analyze branch of `main` (source lines 155-208): probe the
quota — returning before any analysis call when it yields `None`
(line 159), aborting when it raises — then run the loop and finalize. -/
def main_run (probe : ProbeResponse) (searchTerm : String)
    (rs : List (AdRecord × ServiceResponse)) : RunTrace :=
  match check_rate_limits probe with
  | .value (some (rate, itv)) => afterProbe searchTerm rate itv rs
  | .value none => { calls := 0, pauses := [], result := .probeFailed }
  | _ => { calls := 0, pauses := [], result := .aborted }

/-- The total per-cell transformation actually reached through the
pipeline (where every list cell holds only strings, `joinCellOpt`
succeeds and agrees with this). -/
def finalCell : PyValue → PyValue
  | PyValue.list xs => PyValue.str (String.intercalate ", " (xs.map pyStr))
  | v => v

/-- The row the pipeline derives from one kept result dict, given the
unified key list `K`: flatten, rewrite to the schema, join list cells. -/
def finalRowFn (K : List String) (d : Dict) : Dict :=
  (rewriteRow K (flatten_dict d)).map (fun kv => (kv.1, finalCell kv.2))

/-- A value is a string, or a list of strings: the only value shapes
the coercion at source lines 77-81 lets into the accumulated results. -/
def StrOrStrList (v : PyValue) : Prop :=
  (∃ s, v = PyValue.str s) ∨
  (∃ xs, v = PyValue.list xs ∧ ∀ x ∈ xs, ∃ s, x = PyValue.str s)

/-- Every value of the dict is a string or a list of strings. -/
def GoodDict (d : Dict) : Prop := ∀ kv ∈ d, StrOrStrList kv.2

/-! ### Concrete sample values used in closed theorems -/

/-- A probe response granting 5 requests per "10s". -/
def okProbe : ProbeResponse := .http 200 (.wellFormed 5 "10s")

/-- A probe response granting 2 requests per "10s". -/
def okProbe2 : ProbeResponse := .http 200 (.wellFormed 2 "10s")

/-- The spec's end-to-end example record. -/
def recA : AdRecord := ⟨"A", "B", "c.com"⟩

/-- The spec's end-to-end example response: valid JSON with a single
integer-valued key. -/
def respScore : ServiceResponse :=
  .content (some (.dict [("title_score", .int 8)])) "raw"

/-! ### Shared lemmas -/

theorem lookupV_map_self (K : List String) (f : String → PyValue) (k : String)
    (hk : k ∈ K) :
    lookupV (K.map (fun k => (k, f k))) k = some (f k) := by
  induction K with
  | nil => cases hk
  | cons a K ih =>
    simp only [List.map_cons, lookupV]
    by_cases hak : a = k
    · subst hak; simp
    · simp only [if_neg hak]
      rcases List.mem_cons.mp hk with rfl | h
      · exact absurd rfl hak
      · exact ih h

theorem keysOf_rewriteRow (K : List String) (row : Dict) :
    keysOf (rewriteRow K row) = K := by
  unfold keysOf rewriteRow
  rw [List.map_map]
  exact List.map_id K

theorem lookupV_rewriteRow (K : List String) (row : Dict) (k : String)
    (hk : k ∈ K) :
    lookupV (rewriteRow K row) k = some ((lookupV row k).getD (PyValue.str "")) :=
  lookupV_map_self K _ k hk

theorem dedup_append_of_subset {α : Type} [DecidableEq α] (l l' : List α)
    (h : ∀ x ∈ l, x ∈ l') : (l ++ l').dedup = l'.dedup := by
  induction l with
  | nil => simp
  | cons a l ih =>
    have ha : a ∈ l ++ l' := List.mem_append_right l (h a (by simp))
    simp only [List.cons_append, List.dedup_cons_of_mem ha]
    exact ih (fun x hx => h x (List.mem_cons_of_mem a hx))

theorem dedup_flatten_const {α : Type} [DecidableEq α] (L : List (List α))
    (K : List α) (hL : ∀ l ∈ L, l = K) (hne : L ≠ []) :
    L.flatten.dedup = K.dedup := by
  induction L with
  | nil => exact absurd rfl hne
  | cons l L ih =>
    rcases L with _ | ⟨l2, L2⟩
    · simp [hL l (by simp)]
    · have hl : l = K := hL l (by simp)
      have hrest : ∀ m ∈ l2 :: L2, m = K := fun m hm => hL m (by simp [hm])
      have hsub : ∀ x ∈ l, x ∈ (l2 :: L2 : List (List α)).flatten := by
        intro x hx
        have hx2 : x ∈ l2 := by
          rw [hrest l2 (by simp)]
          rw [hl] at hx
          exact hx
        exact List.mem_flatten.mpr ⟨l2, by simp, hx2⟩
      have hstep : (l :: l2 :: L2 : List (List α)).flatten =
          l ++ (l2 :: L2 : List (List α)).flatten := by simp
      rw [hstep, dedup_append_of_subset _ _ hsub]
      exact ih hrest (by simp)

theorem allKeys_nodup (rows : List Dict) : (allKeys rows).Nodup :=
  List.nodup_dedup _

theorem keysOf_unify (rows : List Dict) :
    ∀ row ∈ unify rows, keysOf row = allKeys rows := by
  intro row hrow
  obtain ⟨r, _, rfl⟩ := List.mem_map.mp hrow
  exact keysOf_rewriteRow _ _

theorem allKeys_unify (rows : List Dict) : allKeys (unify rows) = allKeys rows := by
  rcases rows with _ | ⟨r, rs⟩
  · simp [unify, allKeys]
  · have hmap : (unify (r :: rs)).map keysOf =
        (unify (r :: rs)).map (fun _ => allKeys (r :: rs)) :=
      List.map_congr_left (fun row hrow => keysOf_unify (r :: rs) row hrow)
    show ((unify (r :: rs)).map keysOf).flatten.dedup = allKeys (r :: rs)
    rw [hmap]
    have hne : (unify (r :: rs)).map (fun _ => allKeys (r :: rs)) ≠ [] := by
      simp [unify]
    rw [dedup_flatten_const _ (allKeys (r :: rs))
      (by
        intro l hl
        rcases List.mem_map.mp hl with ⟨a, _, h⟩
        exact h.symm) hne]
    exact List.dedup_eq_self.mpr (allKeys_nodup (r :: rs))

theorem rewriteRow_rewriteRow (K : List String) (row : Dict) :
    rewriteRow K (rewriteRow K row) = rewriteRow K row := by
  unfold rewriteRow
  apply List.map_congr_left
  intro k hk
  rw [lookupV_map_self K _ k hk]
  rfl

theorem unify_idem (rows : List Dict) : unify (unify rows) = unify rows := by
  show (unify rows).map (rewriteRow (allKeys (unify rows))) = unify rows
  rw [allKeys_unify]
  show (rows.map (rewriteRow (allKeys rows))).map (rewriteRow (allKeys rows)) =
    rows.map (rewriteRow (allKeys rows))
  rw [List.map_map]
  apply List.map_congr_left
  intro r _
  exact rewriteRow_rewriteRow (allKeys rows) r

theorem analyzeBody_ne_transport (resp : ServiceResponse) :
    analyzeBody resp ≠ PyResult.transportExn := by
  cases resp with
  | transport_error => simp [analyzeBody]
  | content parsed raw =>
    cases parsed with
    | none => simp [analyzeBody]
    | some v => cases v <;> simp [analyzeBody]

theorem analysisOf_eq_body (st : String) (p : AdRecord × ServiceResponse) :
    analysisOf st p = analyzeBody p.2 := by
  unfold analysisOf analyze_ad_copy tenacityRetry
  rw [tenacityGo]
  cases h : analyzeBody p.2 with
  | value a => simp [h]
  | transportExn => exact absurd h (analyzeBody_ne_transport p.2)
  | otherExn => simp [h]

theorem analyzeBody_good (resp : ServiceResponse) (d : Dict)
    (h : analyzeBody resp = .value (some d)) : GoodDict d := by
  cases resp with
  | transport_error => simp [analyzeBody] at h
  | content parsed raw =>
    cases parsed with
    | none =>
      simp only [analyzeBody, PyResult.value.injEq, Option.some.injEq] at h
      subst h
      intro kv hkv
      simp only [parseFailureDict, List.mem_cons, List.not_mem_nil,
        or_false] at hkv
      rcases hkv with rfl | rfl
      · exact Or.inl ⟨_, rfl⟩
      · exact Or.inl ⟨_, rfl⟩
    | some v =>
      cases v with
      | dict kvs =>
        simp only [analyzeBody, PyResult.value.injEq, Option.some.injEq] at h
        subst h
        intro kv hkv
        rcases List.mem_map.mp hkv with ⟨⟨k0, v0⟩, _, rfl⟩
        cases v0 with
        | str s => exact Or.inl ⟨s, rfl⟩
        | list xs =>
          refine Or.inr ⟨xs.map (fun x => PyValue.str (pyStr x)), rfl, ?_⟩
          intro x hx
          rcases List.mem_map.mp hx with ⟨y, _, rfl⟩
          exact ⟨pyStr y, rfl⟩
        | int n => exact Or.inl ⟨_, rfl⟩
        | bool b => exact Or.inl ⟨_, rfl⟩
        | pynull => exact Or.inl ⟨_, rfl⟩
        | dict kvs2 => exact Or.inl ⟨_, rfl⟩
      | str s => simp [analyzeBody] at h
      | int n => simp [analyzeBody] at h
      | bool b => simp [analyzeBody] at h
      | pynull => simp [analyzeBody] at h
      | list xs => simp [analyzeBody] at h

theorem flattenPairs_eq_self (d : Dict) (h : GoodDict d) :
    flattenPairs "_" "" d = d := by
  induction d with
  | nil => rw [flattenPairs]
  | cons kv rest ih =>
    obtain ⟨k, v⟩ := kv
    have hv := h (k, v) (by simp)
    have hrest : GoodDict rest := fun kv hkv => h kv (List.mem_cons_of_mem _ hkv)
    rcases hv with ⟨s, rfl⟩ | ⟨xs, rfl, _⟩ <;>
      · rw [flattenPairs]
        simp [ih hrest]
        exact fun kvs hh => PyValue.noConfusion hh

theorem dictInsert_pres (P : PyValue → Prop) (acc : Dict) (k : String)
    (v : PyValue) (hacc : ∀ kv ∈ acc, P kv.2) (hv : P v) :
    ∀ kv ∈ dictInsert acc k v, P kv.2 := by
  intro kv hkv
  unfold dictInsert at hkv
  by_cases hk : k ∈ keysOf acc
  · rw [if_pos hk] at hkv
    rcases List.mem_map.mp hkv with ⟨kv0, hkv0, rfl⟩
    by_cases he : kv0.1 = k
    · simp only [if_pos he]
      exact hv
    · simp only [if_neg he]
      exact hacc kv0 hkv0
  · rw [if_neg hk] at hkv
    rcases List.mem_append.mp hkv with hmem | hmem
    · exact hacc kv hmem
    · simp only [List.mem_cons, List.not_mem_nil, or_false] at hmem
      subst hmem
      exact hv

theorem dictOf_pres (P : PyValue → Prop) (items : Dict)
    (h : ∀ kv ∈ items, P kv.2) : ∀ kv ∈ dictOf items, P kv.2 := by
  unfold dictOf
  suffices haux : ∀ (its : Dict) (acc : Dict), (∀ kv ∈ acc, P kv.2) →
      (∀ kv ∈ its, P kv.2) →
      ∀ kv ∈ its.foldl (fun acc kv => dictInsert acc kv.1 kv.2) acc, P kv.2 by
    exact haux items [] (by intro kv hkv; cases hkv) h
  intro its
  induction its with
  | nil => intro acc hacc _ kv hkv; exact hacc kv hkv
  | cons a rest ih =>
    intro acc hacc hits kv hkv
    rw [List.foldl_cons] at hkv
    exact ih (dictInsert acc a.1 a.2)
      (dictInsert_pres P acc a.1 a.2 hacc (hits a (by simp)))
      (fun kv h => hits kv (List.mem_cons_of_mem _ h)) kv hkv

theorem good_dictOf (d : Dict) (h : GoodDict d) : GoodDict (dictOf d) :=
  dictOf_pres StrOrStrList d h

theorem flatten_dict_eq_dictOf (d : Dict) (h : GoodDict d) :
    flatten_dict d = dictOf d := by
  rw [flatten_dict, flattenPairs_eq_self d h]

theorem good_flatten_dict (d : Dict) (h : GoodDict d) :
    GoodDict (flatten_dict d) := by
  rw [flatten_dict_eq_dictOf d h]
  exact good_dictOf d h

theorem lookupV_mem (row : Dict) (k : String) (v : PyValue)
    (h : lookupV row k = some v) : (k, v) ∈ row := by
  induction row with
  | nil => simp [lookupV] at h
  | cons kv rest ih =>
    obtain ⟨k0, v0⟩ := kv
    rw [lookupV] at h
    by_cases he : k0 = k
    · rw [if_pos he] at h
      subst he
      cases h
      exact List.mem_cons_self _ _
    · rw [if_neg he] at h
      exact List.mem_cons_of_mem _ (ih h)

theorem good_rewriteRow (K : List String) (row : Dict) (h : GoodDict row) :
    GoodDict (rewriteRow K row) := by
  intro kv hkv
  rcases List.mem_map.mp hkv with ⟨k, _, rfl⟩
  cases hl : lookupV row k with
  | none => simp [hl]; exact Or.inl ⟨"", rfl⟩
  | some v =>
    simp only [hl, Option.getD_some]
    exact h (k, v) (lookupV_mem row k v hl)

theorem mapMO_eq_map {α β : Type} (f : α → Option β) (g : α → β) (l : List α)
    (h : ∀ x ∈ l, f x = some (g x)) : mapMO f l = some (l.map g) := by
  induction l with
  | nil => rfl
  | cons a t ih =>
    rw [mapMO, h a (by simp), ih (fun x hx => h x (List.mem_cons_of_mem _ hx))]
    rfl

theorem pyJoinStrs_of_strs (xs : List PyValue)
    (h : ∀ x ∈ xs, ∃ s, x = PyValue.str s) :
    pyJoinStrs xs = some (String.intercalate ", " (xs.map pyStr)) := by
  unfold pyJoinStrs
  rw [mapMO_eq_map (fun v => match v with | PyValue.str s => some s | _ => none)
    pyStr xs (by intro x hx; rcases h x hx with ⟨s, rfl⟩; rfl)]
  rfl

theorem joinRow_eq (row : Dict) (h : GoodDict row) :
    joinRow row = some (row.map (fun kv => (kv.1, finalCell kv.2))) := by
  unfold joinRow
  apply mapMO_eq_map
  intro kv hkv
  rcases h kv hkv with ⟨s, hs⟩ | ⟨xs, hxs, hstr⟩
  · rw [hs]; rfl
  · rw [hxs]
    show (joinCellOpt (PyValue.list xs)).map _ = _
    rw [joinCellOpt, pyJoinStrs_of_strs xs hstr]
    rfl

theorem finalizeTable_of_good (results : List Dict)
    (h : ∀ d ∈ results, GoodDict d) :
    finalizeTable results =
      some (results.map (finalRowFn (allKeys (results.map flatten_dict)))) := by
  unfold finalizeTable
  rw [mapMO_eq_map joinRow (fun row => row.map (fun kv => (kv.1, finalCell kv.2)))]
  · unfold unify
    rw [List.map_map, List.map_map]
    rfl
  · intro row hrow
    rcases List.mem_map.mp hrow with ⟨x, hx, rfl⟩
    rcases List.mem_map.mp hx with ⟨d, hd, rfl⟩
    exact joinRow_eq _ (good_rewriteRow _ _ (good_flatten_dict d (h d hd)))

theorem keptDicts_cons (st : String) (p : AdRecord × ServiceResponse)
    (rest : List (AdRecord × ServiceResponse)) :
    keptDicts st (p :: rest) =
      (match analysisOf st p with
       | PyResult.value (some d) => d :: keptDicts st rest
       | _ => keptDicts st rest) := by
  unfold keptDicts
  rw [List.filterMap_cons]
  cases h : analysisOf st p with
  | value a => cases a <;> simp
  | transportExn => simp
  | otherExn => simp

theorem mainLoop_ok (st : String) (rate : Nat) (itv : String) (total : Nat)
    (hr : rate ≠ 0) (secs : Nat) (hs : sleepSecondsOf itv = some secs)
    (rs : List (AdRecord × ServiceResponse))
    (hex : ∀ p ∈ rs, analysisOf st p ≠ PyResult.otherExn) :
    ∀ idx, mainLoop st rate itv total rs idx =
      (rs.length,
       (List.range' idx rs.length).filter
         (fun i => decide ((i + 1) % rate = 0 ∧ i < total - 1)),
       some (keptDicts st rs)) := by
  induction rs with
  | nil => intro idx; simp [mainLoop, keptDicts]
  | cons p rest ih =>
    intro idx
    obtain ⟨r, resp⟩ := p
    have hb : analysisOf st (r, resp) = analyzeBody resp :=
      analysisOf_eq_body st (r, resp)
    have hrest : ∀ q ∈ rest, analysisOf st q ≠ PyResult.otherExn :=
      fun q hq => hex q (List.mem_cons_of_mem _ hq)
    cases ha : analyzeBody resp with
    | otherExn => exact absurd (hb.trans ha) (hex (r, resp) (by simp))
    | transportExn => exact absurd ha (analyzeBody_ne_transport resp)
    | value a =>
      have hscrut : (analyze_ad_copy (adCopyOf r) st fun _ => resp).2 =
          PyResult.value a := hb.trans ha
      have hkept : keptDicts st ((r, resp) :: rest) =
          (match a with
           | some d => d :: keptDicts st rest
           | none => keptDicts st rest) := by
        rw [keptDicts_cons, hb.trans ha]
        cases a <;> rfl
      simp only [mainLoop, hscrut]
      rw [if_neg hr]
      by_cases hc : (idx + 1) % rate = 0 ∧ idx < total - 1
      · rw [if_pos hc, hs]
        rw [ih hrest (idx + 1)]
        simp only [List.length_cons, List.range'_succ idx rest.length 1,
          List.filter_cons, hkept]
        rw [if_pos (by simpa using hc)]
        cases a <;> simp
      · rw [if_neg hc]
        rw [ih hrest (idx + 1)]
        simp only [List.length_cons, List.range'_succ idx rest.length 1,
          List.filter_cons, hkept]
        rw [if_neg (by simpa using hc)]
        cases a <;> simp

theorem mainLoop_good (st : String) (rate : Nat) (itv : String) (total : Nat)
    (rs : List (AdRecord × ServiceResponse)) :
    ∀ idx c ps results, mainLoop st rate itv total rs idx = (c, ps, some results) →
      ∀ d ∈ results, GoodDict d := by
  induction rs with
  | nil =>
    intro idx c ps results h d hd
    simp only [mainLoop, Prod.mk.injEq, Option.some.injEq] at h
    rw [← h.2.2] at hd
    cases hd
  | cons p rest ih =>
    intro idx c ps results h d hd
    obtain ⟨r, resp⟩ := p
    have hb : analysisOf st (r, resp) = analyzeBody resp :=
      analysisOf_eq_body st (r, resp)
    cases ha : analyzeBody resp with
    | otherExn =>
      simp only [mainLoop] at h
      rw [show (analyze_ad_copy (adCopyOf r) st fun _ => resp).2 =
        PyResult.otherExn from hb.trans ha] at h
      simp at h
    | transportExn => exact absurd ha (analyzeBody_ne_transport resp)
    | value a =>
      have hscrut : (analyze_ad_copy (adCopyOf r) st fun _ => resp).2 =
          PyResult.value a := hb.trans ha
      simp only [mainLoop, hscrut] at h
      by_cases hz : rate = 0
      · rw [if_pos hz] at h
        simp at h
      rw [if_neg hz] at h
      have hgooda : ∀ d0, a = some d0 → GoodDict d0 := by
        intro d0 h0
        exact analyzeBody_good resp d0 (h0 ▸ ha)
      by_cases hc : (idx + 1) % rate = 0 ∧ idx < total - 1
      · rw [if_pos hc] at h
        cases hslp : sleepSecondsOf itv with
        | none => rw [hslp] at h; simp at h
        | some secs =>
          rw [hslp] at h
          rcases hrec : mainLoop st rate itv total rest (idx + 1) with ⟨c2, ps2, res2⟩
          rw [hrec] at h
          cases res2 with
          | none => simp at h
          | some l =>
            cases a with
            | some d1 =>
              obtain ⟨-, -, h3⟩ :
                  c2 + 1 = c ∧ idx :: ps2 = ps ∧ d1 :: l = results := by
                simpa using h
              rw [← h3] at hd
              rcases List.mem_cons.mp hd with rfl | hd2
              · exact hgooda _ rfl
              · exact ih (idx + 1) c2 ps2 l hrec d hd2
            | none =>
              obtain ⟨-, -, h3⟩ :
                  c2 + 1 = c ∧ idx :: ps2 = ps ∧ l = results := by
                simpa using h
              rw [← h3] at hd
              exact ih (idx + 1) c2 ps2 l hrec d hd
      · rw [if_neg hc] at h
        rcases hrec : mainLoop st rate itv total rest (idx + 1) with ⟨c2, ps2, res2⟩
        rw [hrec] at h
        cases res2 with
        | none => simp at h
        | some l =>
          cases a with
          | some d1 =>
            obtain ⟨-, -, h3⟩ :
                c2 + 1 = c ∧ ps2 = ps ∧ d1 :: l = results := by
              simpa using h
            rw [← h3] at hd
            rcases List.mem_cons.mp hd with rfl | hd2
            · exact hgooda _ rfl
            · exact ih (idx + 1) c2 ps2 l hrec d hd2
          | none =>
            obtain ⟨-, -, h3⟩ :
                c2 + 1 = c ∧ ps2 = ps ∧ l = results := by
              simpa using h
            rw [← h3] at hd
            exact ih (idx + 1) c2 ps2 l hrec d hd

theorem keptDicts_good (st : String) (rs : List (AdRecord × ServiceResponse)) :
    ∀ d ∈ keptDicts st rs, GoodDict d := by
  intro d hd
  unfold keptDicts at hd
  rcases List.mem_filterMap.mp hd with ⟨p, _, hp⟩
  rw [analysisOf_eq_body] at hp
  cases ha : analyzeBody p.2 with
  | value a =>
    rw [ha] at hp
    cases a with
    | some d0 =>
      simp only [Option.some.injEq] at hp
      subst hp
      exact analyzeBody_good p.2 d0 ha
    | none => simp at hp
  | transportExn => rw [ha] at hp; simp at hp
  | otherExn => rw [ha] at hp; simp at hp

/-- C6: `unify` is schema-complete and idempotent: every row of
`unify rows` has key list exactly `allKeys rows` (the union of the
input rows' keys); a key absent from an input row is bound to the
uniform `""` placeholder in the corresponding output row (`unify`
rewrites row `i` to `rewriteRow (allKeys rows)` of it, which the
`Forall₂` pairing makes explicit); and `unify (unify rows) = unify rows`. -/
theorem c6_unify_schema_complete_idempotent (rows : List Dict) :
    (∀ row ∈ unify rows, keysOf row = allKeys rows) ∧
    List.Forall₂
      (fun inRow outRow => ∀ k ∈ allKeys rows,
        lookupV inRow k = none → lookupV outRow k = some (PyValue.str ""))
      rows (unify rows) ∧
    unify (unify rows) = unify rows := by
  refine ⟨keysOf_unify rows, ?_, unify_idem rows⟩
  unfold unify
  rw [List.forall₂_map_right_iff, List.forall₂_same]
  intro r _ k hk hnone
  rw [lookupV_rewriteRow _ _ _ hk, hnone]
  rfl

/-- Witness for C6 at a concrete two-row input with disjoint keys:
unification is a fixed point there, and the first row's missing key
`"y"` is filled with the `""` placeholder. -/
theorem c6_witness :
    unify (unify [[("x", PyValue.str "1")], [("y", PyValue.str "2")]]) =
      unify [[("x", PyValue.str "1")], [("y", PyValue.str "2")]] ∧
    lookupV
      (rewriteRow (allKeys [[("x", PyValue.str "1")], [("y", PyValue.str "2")]])
        [("x", PyValue.str "1")]) "y" = some (PyValue.str "") := by
  refine ⟨(c6_unify_schema_complete_idempotent _).2.2, ?_⟩
  have h2 := (c6_unify_schema_complete_idempotent
    [[("x", PyValue.str "1")], [("y", PyValue.str "2")]]).2.1
  have e : unify [[("x", PyValue.str "1")], [("y", PyValue.str "2")]] =
      [rewriteRow (allKeys [[("x", PyValue.str "1")], [("y", PyValue.str "2")]])
         [("x", PyValue.str "1")],
       rewriteRow (allKeys [[("x", PyValue.str "1")], [("y", PyValue.str "2")]])
         [("y", PyValue.str "2")]] := rfl
  rw [e] at h2
  rcases h2 with _ | ⟨h1, _⟩
  exact h1 "y" (by decide) rfl

/-- C10: `flatten_dict` is not injective on leaves — on
`{"a_b": "v1", "a": {"b": "v2"}}` the two distinct leaf paths both
produce the key `a_b`, the later-enumerated leaf ("v2") silently
overwrites the earlier one, and the flattened dict has 1 entry against
the input's 2 leaves. -/
theorem c10_flatten_collision :
    flatten_dict
        [("a_b", PyValue.str "v1"), ("a", PyValue.dict [("b", PyValue.str "v2")])] =
      [("a_b", PyValue.str "v2")] ∧
    leafCountD
        [("a_b", PyValue.str "v1"), ("a", PyValue.dict [("b", PyValue.str "v2")])] = 2 ∧
    (flatten_dict
        [("a_b", PyValue.str "v1"),
         ("a", PyValue.dict [("b", PyValue.str "v2")])]).length = 1 := by
  refine ⟨?_, ?_, ?_⟩
  · simp [flatten_dict, flattenPairs, dictOf, dictInsert, keysOf]
  · simp [leafCountD]
  · simp [flatten_dict, flattenPairs, dictOf, dictInsert, keysOf]

/-- C3 (code-bug evidence): on a record whose every service call raises
a transient transport error, the decorated `analyze_ad_copy` makes
exactly ONE attempt and returns `None` — the body's
`except RequestException` handler at source line 90 swallows the very
exception class the decorator at lines 26-30 is configured to retry
on, so tenacity never sees a failure — even though the retry wrapper
itself would make 3 attempts if that exception escaped the body, as
the second conjunct shows on a bare transport-raising body. -/
theorem c3_retry_never_happens :
    analyze_ad_copy "Title: A" "term" (fun _ => ServiceResponse.transport_error) =
      (1, PyResult.value none) ∧
    tenacityRetry (fun _ => (PyResult.transportExn : PyResult (Option Dict))) 3 =
      (3, PyResult.transportExn) := by
  constructor
  · simp [analyze_ad_copy, tenacityRetry, tenacityGo, analyzeBody]
  · simp [tenacityRetry, tenacityGo]

/-- C4 counterexample: a successfully returned response whose text is
valid JSON but not a mapping (`"5"`, parsing to the number 5) makes
the normalizer raise (`parsed_content.items()` on an `int`) instead of
returning a `Degraded` outcome, and the exception aborts the whole
batch — contradicting both the "returns Degraded" and the "never
aborts the batch" parts of the claim. -/
theorem c4_counterexample :
    analyzeBody (ServiceResponse.content (some (PyValue.int 5)) "5") =
      PyResult.otherExn ∧
    (main_run okProbe "term"
        [(recA, ServiceResponse.content (some (PyValue.int 5)) "5")]).result =
      RunResult.aborted := by
  constructor
  · rfl
  · simp [main_run, afterProbe, okProbe, recA, check_rate_limits, mainLoop, analyze_ad_copy,
      tenacityRetry, tenacityGo, analyzeBody]

/-- C4 (amended): when parsing the raw text fails outright (a JSON
decode error), the call returns the degraded dictionary carrying the
original raw text unchanged under `raw_content`, without raising, and
a batch containing only such a response finishes with a table whose
row is exactly that dictionary; only a response that parses to a
non-mapping raises past the normalizer. -/
theorem c4_amended_parse_failure_degraded (a s raw : String) (r : AdRecord) :
    (analyze_ad_copy a s (fun _ => ServiceResponse.content none raw)).2 =
      PyResult.value (some (parseFailureDict raw)) ∧
    lookupV (parseFailureDict raw) "raw_content" = some (PyValue.str raw) ∧
    (main_run okProbe s [(r, ServiceResponse.content none raw)]).result =
      RunResult.table [parseFailureDict raw] := by
  refine ⟨?_, rfl, ?_⟩
  · simp [analyze_ad_copy, tenacityRetry, tenacityGo, analyzeBody]
  · simp [main_run, afterProbe, okProbe, check_rate_limits, mainLoop, analyze_ad_copy,
      tenacityRetry, tenacityGo, analyzeBody, parseFailureDict, finalizeTable,
      unify, allKeys, keysOf, flatten_dict, flattenPairs, dictOf, dictInsert,
      rewriteRow, lookupV, mapMO, joinRow, joinCellOpt, pyJoinStrs,
      sleepSecondsOf, adCopyOf]

theorem main_run_probe_ok (probe : ProbeResponse) (st : String)
    (rs : List (AdRecord × ServiceResponse)) (rate : Nat) (itv : String)
    (hq : check_rate_limits probe = PyResult.value (some (rate, itv))) :
    main_run probe st rs = afterProbe st rate itv rs := by
  unfold main_run
  rw [hq]

theorem mainLoop_ignores_records (st : String) (rate : Nat) (itv : String)
    (total : Nat) (resps : List ServiceResponse) :
    ∀ (recs recs' : List AdRecord), recs.length = resps.length →
      recs'.length = resps.length → ∀ idx,
      mainLoop st rate itv total (recs.zip resps) idx =
        mainLoop st rate itv total (recs'.zip resps) idx := by
  induction resps with
  | nil =>
    intro recs recs' _ _ idx
    rw [List.zip_nil_right, List.zip_nil_right]
  | cons resp rest ih =>
    intro recs recs' h1 h2 idx
    cases recs with
    | nil => simp at h1
    | cons r recs0 =>
      cases recs' with
      | nil => simp at h2
      | cons r2 recs0' =>
        simp only [List.zip_cons_cons, mainLoop]
        rw [show (analyze_ad_copy (adCopyOf r) st fun _ => resp).2 =
            analyzeBody resp from analysisOf_eq_body st (r, resp),
          show (analyze_ad_copy (adCopyOf r2) st fun _ => resp).2 =
            analyzeBody resp from analysisOf_eq_body st (r2, resp)]
        cases analyzeBody resp with
        | value a =>
          have e := ih recs0 recs0' (by simpa using h1) (by simpa using h2)
            (idx + 1)
          simp only [List.zip] at e
          rw [e]
        | transportExn => rfl
        | otherExn => rfl

theorem main_run_ignores_records (probe : ProbeResponse) (st : String)
    (recs recs' : List AdRecord) (resps : List ServiceResponse)
    (h1 : recs.length = resps.length) (h2 : recs'.length = resps.length) :
    main_run probe st (recs.zip resps) = main_run probe st (recs'.zip resps) := by
  unfold main_run
  cases check_rate_limits probe with
  | value q =>
    cases q with
    | none => rfl
    | some p =>
      obtain ⟨rate, itv⟩ := p
      show afterProbe st rate itv (recs.zip resps) =
        afterProbe st rate itv (recs'.zip resps)
      unfold afterProbe
      have hlen : (recs.zip resps).length = (recs'.zip resps).length := by
        simp [h1, h2]
      rw [hlen,
        mainLoop_ignores_records st rate itv (recs'.zip resps).length resps
          recs recs' h1 h2 0]
  | transportExn => rfl
  | otherExn => rfl

/-- C2 counterexample: for the claim's own end-to-end example — record
`{title: "A", snippet: "B", displayed_link: "c.com"}` whose service
response is the valid JSON `{"title_score": 8}` — the produced output
row is exactly `{title_score: "8"}`: the loop appends the analysis
dict alone (source line 171), so the record's `title`, `snippet` and
`displayed_link` fields are NOT joined into the row (`title` is absent). -/
theorem c2_counterexample :
    (main_run okProbe "term" [(recA, respScore)]).result =
      RunResult.table [[("title_score", PyValue.str "8")]] ∧
    lookupV [("title_score", PyValue.str "8")] "title" = none := by
  constructor
  · simp [main_run, afterProbe, okProbe, recA, respScore, check_rate_limits, mainLoop,
      analyze_ad_copy, tenacityRetry, tenacityGo, analyzeBody, coerceTop, pyStr,
      pyRepr, finalizeTable, unify, allKeys, keysOf, flatten_dict, flattenPairs,
      dictOf, dictInsert, rewriteRow, lookupV, mapMO, joinRow, joinCellOpt,
      pyJoinStrs, sleepSecondsOf, adCopyOf]
    rfl
  · rfl

/-- C2 (amended): an output row consists solely of fields derived from
the analysis outcome; the originating record's own fields are not
merged in.  Concretely, the claim's example yields the row
`{title_score: "8"}` alone, and, in general, replacing every input
record by a different one (keeping the service responses) leaves the
entire run — rows included — unchanged. -/
theorem c2_amended_outcome_fields_only (probe : ProbeResponse) (st : String)
    (recs recs' : List AdRecord) (resps : List ServiceResponse)
    (h1 : recs.length = resps.length) (h2 : recs'.length = resps.length) :
    main_run probe st (recs.zip resps) = main_run probe st (recs'.zip resps) ∧
    (main_run okProbe "term" [(recA, respScore)]).result =
      RunResult.table [[("title_score", PyValue.str "8")]] := by
  refine ⟨main_run_ignores_records probe st recs recs' resps h1 h2, ?_⟩
  simp [main_run, afterProbe, okProbe, recA, respScore, check_rate_limits, mainLoop,
    analyze_ad_copy, tenacityRetry, tenacityGo, analyzeBody, coerceTop, pyStr,
    pyRepr, finalizeTable, unify, allKeys, keysOf, flatten_dict, flattenPairs,
    dictOf, dictInsert, rewriteRow, lookupV, mapMO, joinRow, joinCellOpt,
    pyJoinStrs, sleepSecondsOf, adCopyOf]
  rfl

/-- Witness for the amended C2: swapping the example record for an
entirely different one, with the same service response, produces the
identical run. -/
theorem c2_amended_witness :
    main_run okProbe "term" ([recA].zip [respScore]) =
      main_run okProbe "term" ([AdRecord.mk "X" "Y" "z.org"].zip [respScore]) :=
  (c2_amended_outcome_fields_only okProbe "term" [recA]
    [AdRecord.mk "X" "Y" "z.org"] [respScore] rfl rfl).1

/-- C1 counterexample: a 2-record batch whose first record's call fails
(transport error, analysis returns `None`) and whose second succeeds
produces a result table with exactly ONE row — the failed record gets
no row at all (source lines 169-177 only append non-`None` analyses),
so the output does not have one row per input record. -/
theorem c1_counterexample :
    (main_run okProbe "term"
        [(recA, ServiceResponse.transport_error),
         (recA, ServiceResponse.content
           (some (PyValue.dict [("k", PyValue.str "v")])) "r")]).result =
      RunResult.table [[("k", PyValue.str "v")]] ∧
    [(recA, ServiceResponse.transport_error),
     (recA, ServiceResponse.content
       (some (PyValue.dict [("k", PyValue.str "v")])) "r")].length = 2 := by
  constructor
  · simp [main_run, afterProbe, okProbe, recA, check_rate_limits, mainLoop,
      analyze_ad_copy, tenacityRetry, tenacityGo, analyzeBody, coerceTop, pyStr,
      pyRepr, finalizeTable, unify, allKeys, keysOf, flatten_dict, flattenPairs,
      dictOf, dictInsert, rewriteRow, lookupV, mapMO, joinRow, joinCellOpt,
      pyJoinStrs, sleepSecondsOf, adCopyOf]
  · rfl

/-- C1 (amended): under a successful probe, a positive rate limit, a
parseable interval string, and no record whose response parses to a
non-mapping (which would abort the run), the batch issues one call per
record and its table has exactly one row per record whose analysis
did not fail, in input order — row `i` is derived from the `i`-th
kept analysis dict by flatten / schema-rewrite / list-join; records
whose call failed contribute no row. -/
theorem c1_amended_one_row_per_nonfailed (probe : ProbeResponse) (st : String)
    (rs : List (AdRecord × ServiceResponse)) (rate : Nat) (itv : String)
    (hq : check_rate_limits probe = PyResult.value (some (rate, itv)))
    (hr : rate ≠ 0) (secs : Nat) (hs : sleepSecondsOf itv = some secs)
    (hex : ∀ p ∈ rs, analysisOf st p ≠ PyResult.otherExn)
    (hne : keptDicts st rs ≠ []) :
    (main_run probe st rs).result =
      RunResult.table ((keptDicts st rs).map
        (finalRowFn (allKeys ((keptDicts st rs).map flatten_dict)))) ∧
    (main_run probe st rs).calls = rs.length := by
  have hfin := finalizeTable_of_good (keptDicts st rs) (keptDicts_good st rs)
  rw [main_run_probe_ok probe st rs rate itv hq]
  unfold afterProbe
  rw [mainLoop_ok st rate itv rs.length hr secs hs rs hex 0]
  rcases hk : keptDicts st rs with _ | ⟨d, ds⟩
  · exact absurd hk hne
  · rw [hk] at hfin
    simp [hfin]

/-- Witness for the amended C1 at a concrete single-record batch. -/
theorem c1_amended_witness :
    (main_run okProbe "term" [(recA, respScore)]).result =
      RunResult.table ((keptDicts "term" [(recA, respScore)]).map
        (finalRowFn (allKeys
          ((keptDicts "term" [(recA, respScore)]).map flatten_dict)))) ∧
    (main_run okProbe "term" [(recA, respScore)]).calls = 1 :=
  c1_amended_one_row_per_nonfailed okProbe "term" [(recA, respScore)] 5 "10s"
    rfl (by decide) 10 (by decide)
    (by
      intro p hp
      simp only [List.mem_cons, List.not_mem_nil, or_false] at hp
      subst hp
      rw [analysisOf_eq_body]
      simp [analyzeBody, respScore])
    (by
      have he : keptDicts "term" [(recA, respScore)] =
          [[("title_score", PyValue.str "8")]] := by
        simp [keptDicts, analysisOf, analyze_ad_copy, tenacityRetry, tenacityGo,
          analyzeBody, respScore, coerceTop, pyStr, pyRepr]
        rfl
      rw [he]
      simp)

/-- C5 counterexample: a successfully parsed mapping with the nested
sub-mapping `{"details": {"sentiment_score": 5}}` does NOT produce the
separator-joined key `details_sentiment_score`: the coercion at source
lines 80-81 stringifies the nested dict wholesale before `flatten_dict`
ever runs, so the row keeps the single key `details` bound to the
Python repr string of the sub-mapping. -/
theorem c5_counterexample :
    (main_run okProbe "term"
        [(recA, ServiceResponse.content
          (some (PyValue.dict
            [("details", PyValue.dict [("sentiment_score", PyValue.int 5)])]))
          "r")]).result =
      RunResult.table
        [[("details", PyValue.str "\x7b\x27sentiment_score\x27: 5\x7d")]] ∧
    lookupV [("details", PyValue.str "\x7b\x27sentiment_score\x27: 5\x7d")]
      "details_sentiment_score" = none := by
  constructor
  · simp [main_run, afterProbe, okProbe, recA, check_rate_limits, mainLoop,
      analyze_ad_copy, tenacityRetry, tenacityGo, analyzeBody, coerceTop, pyStr,
      pyRepr, pyReprPairs, finalizeTable, unify, allKeys, keysOf, flatten_dict,
      flattenPairs, dictOf, dictInsert, rewriteRow, lookupV, mapMO, joinRow,
      joinCellOpt, pyJoinStrs, sleepSecondsOf, adCopyOf]
    rfl
  · rfl

/-- C5 (amended): the pipeline stringifies nested sub-mappings
wholesale (no separator-joined keys arise from them — see the
counterexample), stringifies each sequence element and later joins
sequence cells with ", ", and stringifies every other non-string leaf,
so that every cell of every row of a produced table is a scalar
string. -/
theorem c5_amended_cells_all_strings (probe : ProbeResponse) (st : String)
    (rs : List (AdRecord × ServiceResponse)) (t : List Dict)
    (h : (main_run probe st rs).result = RunResult.table t) :
    ∀ row ∈ t, ∀ kv ∈ row, ∃ s, kv.2 = PyValue.str s := by
  unfold main_run at h
  cases hq : check_rate_limits probe with
  | value q =>
    rw [hq] at h
    cases q with
    | none => simp at h
    | some p =>
      obtain ⟨rate, itv⟩ := p
      show ∀ row ∈ t, ∀ kv ∈ row, ∃ s, kv.2 = PyValue.str s
      replace h : (afterProbe st rate itv rs).result = RunResult.table t := h
      unfold afterProbe at h
      rcases hm : mainLoop st rate itv rs.length rs 0 with ⟨c, ps, res⟩
      rw [hm] at h
      cases res with
      | none => simp at h
      | some results =>
        cases results with
        | nil => simp at h
        | cons d ds =>
          have hgood : ∀ d0 ∈ (d :: ds), GoodDict d0 :=
            mainLoop_good st rate itv rs.length rs 0 c ps (d :: ds) hm
          replace h : (match finalizeTable (d :: ds) with
              | none => RunTrace.mk c ps RunResult.aborted
              | some t0 => RunTrace.mk c ps (RunResult.table t0)).result =
              RunResult.table t := h
          rw [finalizeTable_of_good (d :: ds) hgood] at h
          replace h : RunResult.table ((d :: ds).map
              (finalRowFn (allKeys ((d :: ds).map flatten_dict)))) =
              RunResult.table t := h
          obtain rfl : t = (d :: ds).map
              (finalRowFn (allKeys ((d :: ds).map flatten_dict))) := by
            simpa using h.symm
          intro row hrow kv hkv
          rcases List.mem_map.mp hrow with ⟨d0, hd0, rfl⟩
          rcases List.mem_map.mp hkv with ⟨kv0, hkv0, rfl⟩
          have hg : GoodDict (rewriteRow (allKeys ((d :: ds).map flatten_dict))
              (flatten_dict d0)) :=
            good_rewriteRow _ _ (good_flatten_dict d0 (hgood d0 hd0))
          rcases hg kv0 hkv0 with ⟨s, hs⟩ | ⟨xs, hxs, _⟩
          · exact ⟨s, by rw [hs]; rfl⟩
          · exact ⟨String.intercalate ", " (xs.map pyStr), by rw [hxs]; rfl⟩
  | transportExn => rw [hq] at h; simp at h
  | otherExn => rw [hq] at h; simp at h

/-- Witness for the amended C5: in the end-to-end example run, every
cell of the produced table is a scalar string. -/
theorem c5_amended_witness :
    (main_run okProbe "w" [(recA, respScore)]).result =
      RunResult.table [[("title_score", PyValue.str "8")]] ∧
    (∀ row ∈ [[("title_score", PyValue.str "8")]],
      ∀ kv ∈ row, ∃ s, kv.2 = PyValue.str s) := by
  have he : (main_run okProbe "w" [(recA, respScore)]).result =
      RunResult.table [[("title_score", PyValue.str "8")]] := by
    simp [main_run, afterProbe, okProbe, recA, respScore, check_rate_limits,
      mainLoop, analyze_ad_copy, tenacityRetry, tenacityGo, analyzeBody,
      coerceTop, pyStr, pyRepr, finalizeTable, unify, allKeys, keysOf,
      flatten_dict, flattenPairs, dictOf, dictInsert, rewriteRow, lookupV,
      mapMO, joinRow, joinCellOpt, pyJoinStrs, sleepSecondsOf, adCopyOf]
    rfl
  exact ⟨he, c5_amended_cells_all_strings okProbe "w" [(recA, respScore)]
    [[("title_score", PyValue.str "8")]] he⟩

theorem afterProbe_pauses (st : String) (rate : Nat) (itv : String)
    (rs : List (AdRecord × ServiceResponse)) :
    (afterProbe st rate itv rs).pauses =
      (mainLoop st rate itv rs.length rs 0).2.1 := by
  unfold afterProbe
  rcases mainLoop st rate itv rs.length rs 0 with ⟨c, ps, res⟩
  cases res with
  | none => rfl
  | some l =>
    cases l with
    | nil => rfl
    | cons d ds =>
      show (match finalizeTable (d :: ds) with
          | none => RunTrace.mk c ps RunResult.aborted
          | some t => RunTrace.mk c ps (RunResult.table t)).pauses = ps
      cases finalizeTable (d :: ds) <;> rfl

/-- C7: pacing is count-based with no trailing pause — under a
successful probe with a positive rate and parseable interval and no
aborting record, the run pauses after 0-based record index `i` exactly
when `i + 1` is a multiple of `rate` and at least one more record
remains; in particular with rate 2 a 2-record batch pauses never and a
3-record batch pauses exactly once, after index 1 (before record 3). -/
theorem c7_pacing_count_based (probe : ProbeResponse) (st : String)
    (rs : List (AdRecord × ServiceResponse)) (rate : Nat) (itv : String)
    (hq : check_rate_limits probe = PyResult.value (some (rate, itv)))
    (hr : rate ≠ 0) (secs : Nat) (hs : sleepSecondsOf itv = some secs)
    (hex : ∀ p ∈ rs, analysisOf st p ≠ PyResult.otherExn) :
    (∀ i, i ∈ (main_run probe st rs).pauses ↔
      ((i + 1) % rate = 0 ∧ i + 1 < rs.length)) ∧
    (main_run okProbe2 st [(recA, respScore), (recA, respScore)]).pauses = [] ∧
    (main_run okProbe2 st
      [(recA, respScore), (recA, respScore), (recA, respScore)]).pauses =
      [1] := by
  refine ⟨?_, ?_, ?_⟩
  · intro i
    rw [main_run_probe_ok probe st rs rate itv hq, afterProbe_pauses,
      mainLoop_ok st rate itv rs.length hr secs hs rs hex 0]
    show i ∈ (List.range' 0 rs.length).filter
      (fun i => decide ((i + 1) % rate = 0 ∧ i < rs.length - 1)) ↔ _
    rw [List.mem_filter, List.mem_range'_1]
    constructor
    · rintro ⟨⟨-, hi⟩, hc⟩
      have hc' := of_decide_eq_true hc
      refine ⟨hc'.1, ?_⟩
      have h2 := hc'.2
      omega
    · rintro ⟨hm, hlt⟩
      exact ⟨⟨Nat.zero_le i, by omega⟩, decide_eq_true ⟨hm, by omega⟩⟩
  · have hs10 : sleepSecondsOf "10s" = some 10 := by decide
    simp [main_run, afterProbe, okProbe2, recA, respScore, check_rate_limits,
      mainLoop, analyze_ad_copy, tenacityRetry, tenacityGo, analyzeBody,
      coerceTop, pyStr, pyRepr, finalizeTable, unify, allKeys, keysOf,
      flatten_dict, flattenPairs, dictOf, dictInsert, rewriteRow, lookupV,
      mapMO, joinRow, joinCellOpt, pyJoinStrs, hs10, adCopyOf]
  · have hs10 : sleepSecondsOf "10s" = some 10 := by decide
    simp [main_run, afterProbe, okProbe2, recA, respScore, check_rate_limits,
      mainLoop, analyze_ad_copy, tenacityRetry, tenacityGo, analyzeBody,
      coerceTop, pyStr, pyRepr, finalizeTable, unify, allKeys, keysOf,
      flatten_dict, flattenPairs, dictOf, dictInsert, rewriteRow, lookupV,
      mapMO, joinRow, joinCellOpt, pyJoinStrs, hs10, adCopyOf]

/-- Witness for C7: in a concrete 3-record run at rate 2 the pause
membership equivalence holds at index 1, and the concrete 2-record run
pauses never. -/
theorem c7_witness :
    (1 ∈ (main_run okProbe2 "w" [(recA, respScore), (recA, respScore),
        (recA, respScore)]).pauses ↔ ((1 + 1) % 2 = 0 ∧ 1 + 1 < 3)) ∧
    (main_run okProbe2 "w" [(recA, respScore), (recA, respScore)]).pauses =
      [] := by
  have hx := c7_pacing_count_based okProbe2 "w"
    [(recA, respScore), (recA, respScore), (recA, respScore)] 2 "10s" rfl
    (by decide) 10 (by decide)
    (by
      intro p hp
      simp only [List.mem_cons, List.not_mem_nil, or_false] at hp
      rcases hp with rfl | rfl | rfl <;>
        (rw [analysisOf_eq_body]; simp [analyzeBody, respScore]))
  exact ⟨hx.1 1, hx.2.1⟩

/-- C8: if the quota probe fails — a non-success status or a
malformed payload — the batch does not proceed: no analysis call is
made for any record (`calls = 0`) and the run ends in the
returned-before-the-loop state or the aborted state, never in a table. -/
theorem c8_probe_failure_no_calls (status : Nat) (payload : ProbePayload)
    (st : String) (rs : List (AdRecord × ServiceResponse))
    (h : status ≠ 200 ∨ payload = ProbePayload.malformed) :
    (main_run (ProbeResponse.http status payload) st rs).calls = 0 ∧
    ((main_run (ProbeResponse.http status payload) st rs).result =
        RunResult.probeFailed ∨
      (main_run (ProbeResponse.http status payload) st rs).result =
        RunResult.aborted) := by
  by_cases h200 : status = 200
  · have hpm : payload = ProbePayload.malformed := by
      rcases h with h | h
      · exact absurd h200 h
      · exact h
    subst hpm
    subst h200
    have hc : check_rate_limits (ProbeResponse.http 200 ProbePayload.malformed) =
        PyResult.otherExn := rfl
    simp [main_run, hc]
  · have hc : check_rate_limits (ProbeResponse.http status payload) =
        PyResult.value none := by
      simp [check_rate_limits, h200]
    simp [main_run, hc]

/-- Witness for C8: a 500-status probe response issues zero analysis
calls and never reaches a table. -/
theorem c8_witness :
    (main_run (ProbeResponse.http 500 (ProbePayload.wellFormed 5 "10s")) "w"
        [(recA, respScore)]).calls = 0 ∧
    ((main_run (ProbeResponse.http 500 (ProbePayload.wellFormed 5 "10s")) "w"
        [(recA, respScore)]).result = RunResult.probeFailed ∨
      (main_run (ProbeResponse.http 500 (ProbePayload.wellFormed 5 "10s")) "w"
        [(recA, respScore)]).result = RunResult.aborted) :=
  c8_probe_failure_no_calls 500 (ProbePayload.wellFormed 5 "10s") "w"
    [(recA, respScore)] (Or.inl (by decide))

/-- C9 counterexample: in a batch whose only record's call fails, the
run completes but produces NO finalized result table at all — it takes
the warning path (source line 208), skipping flatten/unify/finalize —
rather than returning a BatchResult with `succeeded == 0`. -/
theorem c9_counterexample :
    (main_run okProbe "term"
        [(recA, ServiceResponse.transport_error)]).result =
      RunResult.noResults := by
  simp [main_run, afterProbe, okProbe, recA, check_rate_limits, mainLoop,
    analyze_ad_copy, tenacityRetry, tenacityGo, analyzeBody]

/-- C9 (amended): under a successful probe, positive rate, parseable
interval and no non-mapping response, the run never aborts; but when
zero records produce a non-failed outcome it ends in the warning state
with no result table, and only when at least one record produced an
outcome does it finalize a table. -/
theorem c9_amended_all_failed_warns (probe : ProbeResponse) (st : String)
    (rs : List (AdRecord × ServiceResponse)) (rate : Nat) (itv : String)
    (hq : check_rate_limits probe = PyResult.value (some (rate, itv)))
    (hr : rate ≠ 0) (secs : Nat) (hs : sleepSecondsOf itv = some secs)
    (hex : ∀ p ∈ rs, analysisOf st p ≠ PyResult.otherExn) :
    (main_run probe st rs).result ≠ RunResult.aborted ∧
    (keptDicts st rs = [] →
      (main_run probe st rs).result = RunResult.noResults) ∧
    (keptDicts st rs ≠ [] →
      ∃ t, (main_run probe st rs).result = RunResult.table t) := by
  rw [main_run_probe_ok probe st rs rate itv hq]
  unfold afterProbe
  rw [mainLoop_ok st rate itv rs.length hr secs hs rs hex 0]
  have hfin := finalizeTable_of_good (keptDicts st rs) (keptDicts_good st rs)
  rcases hk : keptDicts st rs with _ | ⟨d, ds⟩
  · exact ⟨fun hcon => RunResult.noConfusion hcon, fun _ => rfl,
      fun hne => absurd rfl hne⟩
  · rw [hk] at hfin
    refine ⟨by simp [hfin], by intro hnil; simp at hnil, fun _ => ?_⟩
    exact ⟨(d :: ds).map (finalRowFn (allKeys ((d :: ds).map flatten_dict))),
      by simp [hfin]⟩

/-- Witness for the amended C9: a concrete batch whose single record
fails completes without aborting and ends in the warning state. -/
theorem c9_amended_witness :
    (main_run okProbe "w" [(recA, ServiceResponse.transport_error)]).result ≠
      RunResult.aborted ∧
    (main_run okProbe "w" [(recA, ServiceResponse.transport_error)]).result =
      RunResult.noResults := by
  have hx := c9_amended_all_failed_warns okProbe "w"
    [(recA, ServiceResponse.transport_error)] 5 "10s" rfl (by decide) 10
    (by decide)
    (by
      intro p hp
      simp only [List.mem_cons, List.not_mem_nil, or_false] at hp
      subst hp
      rw [analysisOf_eq_body]
      simp [analyzeBody])
  refine ⟨hx.1, hx.2.1 ?_⟩
  rw [keptDicts_cons]
  rw [analysisOf_eq_body]
  rfl
